import Mathlib

/-!
# Verification of the photutils `Background2D` mesh background engine

A shallow embedding of `photutils/background/background_2d.py`.  Pixel
values and the `exclude_percentile` configuration are rationals; images
are functions from coordinates to values together with explicit
dimensions; the mesh table is a list of rows, each row the flattened
(value, masked) pixels of one mesh cell, mirroring the numpy
reshape/swapaxes in `_prepare_data`.
-/

namespace Background2D

/-- Pixel: a value together with its mask flag (`true` = masked), the
explicit-parallel-mask rendering of a numpy masked array entry. -/
abbrev Pixel := ℚ × Bool

/-- Error taxonomy of the construction pipeline, mirroring the
`ValueError`s raised in `Background2D.__init__`, `_prepare_data` and
`_select_meshes`.  `allMeshesExcluded` carries the effective pixel
threshold and the configured percentile, as the message at
`_select_meshes` does. -/
inductive BkgError where
  | shapeMismatch : BkgError
  | outOfRange : BkgError
  | invalidEdgePolicy : BkgError
  | allMeshesExcluded (threshold : ℚ) (percentile : ℚ) : BkgError
  deriving DecidableEq, Repr

/-- Effective pixel threshold: `threshold_npixels =
self.exclude_percentile / 100. * self.box_npixels` (source line 335). -/
def threshold_npixels (p : ℚ) (boxNpixels : ℕ) : ℚ :=
  p / 100 * boxNpixels

/-- The per-mesh inclusion test of `_select_meshes` (source line 336):
`(nmasked <= threshold_npixels) & (nmasked != box_npixels)`. -/
def meshIncluded (p : ℚ) (boxNpixels : ℕ) (nmasked : ℕ) : Bool :=
  decide ((nmasked : ℚ) ≤ threshold_npixels p boxNpixels)
    && decide (nmasked ≠ boxNpixels)

/-- Number of masked pixels in one mesh row, as
`np.ma.count_masked(data, axis=1)` computes per row. -/
def countMasked (row : List Pixel) : ℕ :=
  (row.filter (fun px => px.2)).length

/-- Mesh selection `_select_meshes`: the ascending list of indices of meshes that pass
the inclusion test; raises `allMeshesExcluded` (with the numeric
threshold and the percentile) when no mesh passes (source lines
326-347). -/
def select_meshes (p : ℚ) (boxNpixels : ℕ) (table : List (List Pixel)) :
    Except BkgError (List ℕ) :=
  let meshIdx := (table.enum.filter
      (fun e => meshIncluded p boxNpixels (countMasked e.2))).map Prod.fst
  if meshIdx.isEmpty then
    .error (.allMeshesExcluded (threshold_npixels p boxNpixels) p)
  else
    .ok meshIdx

/-- Membership in the filtered-and-enumerated index list produced by
the selector. -/
lemma mem_selected_iff {α : Type*} (f : α → Bool) (l : List α) (i : ℕ) :
    i ∈ ((l.enum.filter (fun e => f e.2)).map Prod.fst) ↔
      ∃ h : i < l.length, f (l.get ⟨i, h⟩) := by
  rw [List.mem_map]
  constructor
  · rintro ⟨⟨j, x⟩, he, rfl⟩
    rcases List.mem_filter.mp he with ⟨hmem, hf⟩
    rw [List.mk_mem_enum_iff_getElem?, List.getElem?_eq_some] at hmem
    rcases hmem with ⟨h, hx⟩
    exact ⟨h, by simpa [List.get_eq_getElem, hx] using hf⟩
  · rintro ⟨h, hf⟩
    refine ⟨(i, l.get ⟨i, h⟩), List.mem_filter.mpr ⟨?_, by simpa using hf⟩,
      rfl⟩
    rw [List.mk_mem_enum_iff_getElem?]
    exact List.getElem?_eq_getElem h

/-- Membership characterization for the index list produced inside
`select_meshes`. -/
lemma mem_select_meshes (p : ℚ) (A : ℕ) (table : List (List Pixel))
    (idx : List ℕ) (hsel : select_meshes p A table = .ok idx) (i : ℕ) :
    i ∈ idx ↔ ∃ h : i < table.length,
      meshIncluded p A (countMasked (table.get ⟨i, h⟩)) := by
  unfold select_meshes at hsel
  by_cases hempty : ((table.enum.filter
      (fun e => meshIncluded p A (countMasked e.2))).map Prod.fst).isEmpty
  · simp [hempty] at hsel
  · simp only [hempty, if_neg, Bool.false_eq_true, not_false_iff,
      if_false] at hsel
    cases hsel
    exact mem_selected_iff (fun r => meshIncluded p A (countMasked r)) table i

/-- A masked 2D grid: explicit dimensions, a total value function and a
total mask function (the explicit-parallel-mask rendering of a numpy
masked array). -/
structure MaskedGrid where
  ny : ℕ
  nx : ℕ
  val : ℕ → ℕ → ℚ
  msk : ℕ → ℕ → Bool

/-- An optional mask read as a total function (`mask=None` behaves as
all-`False`, as in `np.ma.masked_array(data, mask=False)`). -/
def maskFun (mask : Option (ℕ → ℕ → Bool)) : ℕ → ℕ → Bool :=
  fun y x =>
    match mask with
    | some m => m y x
    | none => false

/-- Mask combination `_combine_masks` (source lines 227-235): the logical OR of the
bad-pixel mask and the coverage mask, `None` when both are absent. -/
def combine_masks (mask coverage_mask : Option (ℕ → ℕ → Bool)) :
    Option (ℕ → ℕ → Bool) :=
  match mask, coverage_mask with
  | none, none => none
  | none, some c => some c
  | some m, none => some m
  | some m, some c => some (fun y x => m y x || c y x)

/-- The sentinel value used by `_pad_data` for padded pixels
(`constant_values=[1.e10]`). -/
def PAD_SENTINEL : ℚ := 10 ^ 10

/-- Padding `_pad_data` (source lines 237-282): pad data on the trailing (bottom
and right) edges up to the next multiple of the box size; padded data
pixels get the sentinel; `pad_mask` is `True` on rows `>= ny - ypad` and
columns `>= nx - xpad`; the input mask is padded with `True` and OR-ed
with `pad_mask`. -/
def pad_data (boxH boxW H W : ℕ) (data : ℕ → ℕ → ℚ)
    (mask : Option (ℕ → ℕ → Bool)) : MaskedGrid :=
  let yextra := H % boxH
  let xextra := W % boxW
  let ypad := if 0 < yextra then boxH - yextra else 0
  let xpad := if 0 < xextra then boxW - xextra else 0
  let ny := H + ypad
  let nx := W + xpad
  let padded := fun y x => if y < H ∧ x < W then data y x else PAD_SENTINEL
  let pad_mask := fun y x => decide (ny - ypad ≤ y) || decide (nx - xpad ≤ x)
  let mask' :=
    match mask with
    | some m => fun y x =>
        (if y < H ∧ x < W then m y x else true) || pad_mask y x
    | none => pad_mask
  ⟨ny, nx, padded, mask'⟩

/-- Cropping `_crop_data` (source lines 284-304): truncate data and mask to
`(H / boxH) * boxH` rows and `(W / boxW) * boxW` columns. -/
def crop_data (boxH boxW H W : ℕ) (data : ℕ → ℕ → ℚ)
    (mask : Option (ℕ → ℕ → Bool)) : MaskedGrid :=
  ⟨H / boxH * boxH, W / boxW * boxW, data, maskFun mask⟩

/-- The mesh table built in `_prepare_data` (source lines 386-391): the
`reshape(nyboxes, boxH, nxboxes, boxW)` / `swapaxes(1, 2)` /
`reshape(nyboxes * nxboxes, boxH * boxW)` pipeline sends mesh `i` (in
row-major mesh order) and in-mesh offset `j` to the resized-grid pixel
`(i / nxboxes * boxH + j / boxW, i % nxboxes * boxW + j % boxW)`. -/
def mesh_table (boxH boxW nyboxes nxboxes : ℕ) (g : MaskedGrid) :
    List (List Pixel) :=
  (List.range (nyboxes * nxboxes)).map (fun i =>
    (List.range (boxH * boxW)).map (fun j =>
      let y := i / nxboxes * boxH + j / boxW
      let x := i % nxboxes * boxW + j % boxW
      (g.val y x, g.msk y x)))

/-- The output of `_prepare_data`: the resized masked grid, the mesh
grid dimensions, the full mesh table, and the first-cut mesh index. -/
structure Prepared where
  grid : MaskedGrid
  nyboxes : ℕ
  nxboxes : ℕ
  table : List (List Pixel)
  mesh_idx : List ℕ

/-- Preparation `_prepare_data` (source lines 349-395): when both moduli vanish no
resize occurs; otherwise pad or crop according to `edge_method`, failing
on any other method; then build the mesh table and take the first cut of
mesh rejection. -/
def prepare_data (boxH boxW : ℕ) (p : ℚ) (edge_method : String)
    (H W : ℕ) (data : ℕ → ℕ → ℚ) (mask : Option (ℕ → ℕ → Bool)) :
    Except BkgError Prepared := do
  let yextra := H % boxH
  let xextra := W % boxW
  let data_ma ←
    if xextra + yextra = 0 then
      Except.ok (⟨H, W, data, maskFun mask⟩ : MaskedGrid)
    else if edge_method = "pad" then
      Except.ok (pad_data boxH boxW H W data mask)
    else if edge_method = "crop" then
      Except.ok (crop_data boxH boxW H W data mask)
    else
      Except.error BkgError.invalidEdgePolicy
  let nyboxes := data_ma.ny / boxH
  let nxboxes := data_ma.nx / boxW
  let table := mesh_table boxH boxW nyboxes nxboxes data_ma
  let meshIdx ← select_meshes p (boxH * boxW) table
  Except.ok ⟨data_ma, nyboxes, nxboxes, table, meshIdx⟩

/-- Scatter `_make_2d_array` (source lines 397-430): scatter the 1D mesh values
into a 2D mesh grid at the positions `np.unravel_index(mesh_idx,
mesh_shape)`; positions not in `mesh_idx` keep the `np.zeros` fill. -/
def make_2d_array (nxboxes : ℕ) (meshIdx : List ℕ) (vals : List ℚ) :
    ℕ → ℕ → ℚ :=
  fun r c =>
    match (meshIdx.zip vals).find? (fun e => e.1 == r * nxboxes + c) with
    | some e => e.2
    | none => 0

/-- Squared Euclidean distance between two mesh coordinates. -/
def dist2 (a b : ℕ × ℕ) : ℚ :=
  ((a.1 : ℚ) - b.1) ^ 2 + ((a.2 : ℚ) - b.2) ^ 2

/-- Modelled from the spec: `ShepardIDWInterpolator`
(`photutils.utils`, whose source is not part of this repository
snapshot).  Per spec 4.6, each target coordinate is assigned the
weighted average of its `k` nearest known coordinates' values with
inverse-distance weights `1/(distance^power + reg)`, except that a
target coinciding exactly with a known coordinate returns that
coordinate's value exactly (the distance-zero short-circuit).  Since
fractional real powers are not rational-computable, the weight
`1/(distance^power + reg)` is abstracted as a kernel `wt` of the
squared distance; the claims proved below hold for every kernel, hence
for every `power` and `reg`. -/
def shepard_idw (known : List ((ℕ × ℕ) × ℚ)) (k : ℕ) (wt : ℚ → ℚ)
    (target : ℕ × ℕ) : ℚ :=
  match known.find? (fun e => e.1 == target) with
  | some e => e.2
  | none =>
    let near := (List.mergeSort
        (known.map (fun e => (dist2 e.1 target, e.2)))
        (fun a b => decide (a.1 ≤ b.1))).take k
    let wsum := (near.map (fun e => wt e.1)).sum
    let vsum := (near.map (fun e => wt e.1 * e.2)).sum
    if wsum = 0 then 0 else vsum / wsum

/-- Gap filling `_interpolate_meshes` (source lines 432-478): IDW-interpolate the
1D mesh values, known at the `(mesh_idx / nxboxes, mesh_idx % nxboxes)`
coordinates, onto every mesh-grid coordinate. -/
def interpolate_meshes (nxboxes : ℕ) (meshIdx : List ℕ) (vals : List ℚ)
    (k : ℕ) (wt : ℚ → ℚ) : ℕ → ℕ → ℚ :=
  fun r c =>
    shepard_idw
      ((meshIdx.zip vals).map
        (fun e => ((e.1 / nxboxes, e.1 % nxboxes), e.2)))
      k wt (r, c)

/-- Median as `np.median` / `np.nanmedian` over the (finitely many, non-NaN)
window values: sort, take the middle element for odd length, the mean of
the two middle elements for even length. -/
def npMedian (l : List ℚ) : ℚ :=
  let s := List.mergeSort l (fun a b => decide (a ≤ b))
  let n := s.length
  if n = 0 then 0
  else if n % 2 = 1 then s.getD (n / 2) 0
  else (s.getD (n / 2 - 1) 0 + s.getD (n / 2) 0) / 2

/-- The in-bounds filter window at cell `(i, j)`: rows
`max(i - fy/2, 0) ..< min(i - fy/2 + fy, ny)` and likewise for columns.
This is the window of `_selective_filter` (source lines 504-509), and
equally the effective window of `generic_filter(..., mode='constant',
cval=np.nan)` with `np.nanmedian`, whose out-of-bounds NaNs are ignored
by the median. -/
def window_vals (ny nx fy fx : ℕ) (g : ℕ → ℕ → ℚ) (i j : ℕ) : List ℚ :=
  let y0 := i - fy / 2
  let y1 := min (i + (fy - fy / 2)) ny
  let x0 := j - fx / 2
  let x1 := min (j + (fx - fx / 2)) nx
  ((List.range' y0 (y1 - y0)).map (fun y =>
    (List.range' x0 (x1 - x0)).map (fun x => g y x))).flatten

/-- Mesh filtering `_filter_meshes` (source lines 514-535): with no threshold, replace
every in-grid cell of both meshes by the median of its in-bounds
window; with a threshold, recompute (from the unfiltered arrays) only
the cells where the unfiltered background exceeds the threshold,
editing the same cells of the RMS mesh. -/
def filter_meshes (ny nx fy fx : ℕ) (thr : Option ℚ)
    (bkg rms : ℕ → ℕ → ℚ) : (ℕ → ℕ → ℚ) × (ℕ → ℕ → ℚ) :=
  match thr with
  | none =>
    (fun i j => if i < ny ∧ j < nx then window_vals ny nx fy fx bkg i j
        |> npMedian else bkg i j,
     fun i j => if i < ny ∧ j < nx then window_vals ny nx fy fx rms i j
        |> npMedian else rms i j)
  | some t =>
    (fun i j => if i < ny ∧ j < nx ∧ t < bkg i j then
        window_vals ny nx fy fx bkg i j |> npMedian else bkg i j,
     fun i j => if i < ny ∧ j < nx ∧ t < bkg i j then
        window_vals ny nx fy fx rms i j |> npMedian else rms i j)

/-- Modelled from the spec: `BkgZoomInterpolator`
(`photutils.background.interpolators`, whose source is not part of this
repository snapshot).  Spec 4.8 allows any smooth mesh-center-keyed
upsampling; it is modelled here as sampling the mesh cell containing
each pixel (clamped to the mesh grid), which degenerates by
construction to a constant image when the mesh grid is a single cell,
exactly as 4.8 requires. -/
def zoom_interpolator (nyboxes nxboxes boxH boxW : ℕ)
    (meshGrid : ℕ → ℕ → ℚ) : ℕ → ℕ → ℚ :=
  fun y x => meshGrid (min (y / boxH) (nyboxes - 1))
    (min (x / boxW) (nxboxes - 1))

/-- The coverage-fill step of the `background` / `background_rms`
properties (source lines 659-677): wherever the coverage mask is
`True`, the interpolated surface is overwritten with `fill_value`. -/
def apply_coverage_fill (coverage_mask : Option (ℕ → ℕ → Bool))
    (fill_value : ℚ) (surf : ℕ → ℕ → ℚ) : ℕ → ℕ → ℚ :=
  match coverage_mask with
  | none => surf
  | some cov => fun y x => if cov y x then fill_value else surf y x

/-- A pluggable estimator object: a `sigma_clip` attribute and the
callable reduction applied to one mesh row. -/
structure Estimator where
  sigma_clip : Option (List Pixel → List Pixel)
  call : List Pixel → ℚ

/-- The estimator handling of `__init__` (source lines 214-218): the
`sigma_clip` attribute of both supplied estimator objects is assigned
`None` before they are stored. -/
def init_estimators (bkg_estimator bkgrms_estimator : Estimator) :
    Estimator × Estimator :=
  ({ bkg_estimator with sigma_clip := none },
   { bkgrms_estimator with sigma_clip := none })

/-- The construction configuration of `Background2D.__init__`. -/
structure Config where
  box : ℕ × ℕ
  exclude_percentile : ℚ
  filter_size : ℕ × ℕ
  filter_threshold : Option ℚ
  edge_method : String
  fill_value : ℚ
  sigma_clip : Option (List Pixel → List Pixel)
  bkg_estimator : Estimator
  bkgrms_estimator : Estimator
  idw_kernel : ℚ → ℚ
  interpolator : ℕ → ℕ → ℕ → ℕ → (ℕ → ℕ → ℚ) → ℕ → ℕ → ℚ

/-- The computed state of a constructed `Background2D`. -/
structure BkgResult where
  nyboxes : ℕ
  nxboxes : ℕ
  nboxes : ℕ
  mesh_idx : List ℕ
  bkg1d : List ℚ
  rms1d : List ℚ
  data_sigclip : List (List Pixel)
  mesh_unfiltered : ℕ → ℕ → ℚ
  rms_mesh_unfiltered : ℕ → ℕ → ℚ
  background_mesh : ℕ → ℕ → ℚ
  background_rms_mesh : ℕ → ℕ → ℚ
  background : ℕ → ℕ → ℚ
  background_rms : ℕ → ℕ → ℚ

/-- The sigma-clipping step at the head of `_calc_bkg_bkgrms` (source
lines 549-552): apply the configured per-row clipping function to every
selected mesh row, or leave the rows unchanged when `sigma_clip` is
`None`. -/
def applyClip (sc : Option (List Pixel → List Pixel))
    (rows : List (List Pixel)) : List (List Pixel) :=
  match sc with
  | some f => rows.map f
  | none => rows

/-- Estimation `_calc_bkg_bkgrms` (source lines 537-587): sigma-clip the selected
mesh rows, re-run mesh rejection on the clipped rows, narrow
`mesh_idx`, estimate the background and RMS per surviving row, scatter
directly when no mesh is excluded and IDW-interpolate otherwise, and
median-filter unless `filter_size = (1, 1)`. -/
def calc_bkg_bkgrms (p : ℚ) (A nboxes nxboxes : ℕ)
    (filter_size : ℕ × ℕ) (filter_threshold : Option ℚ)
    (sigma_clip : Option (List Pixel → List Pixel))
    (bkgE rmsE : List Pixel → ℚ) (wt : ℚ → ℚ)
    (rows1 : List (List Pixel)) (meshIdx1 : List ℕ) (nyboxes : ℕ) :
    Except BkgError
      (List ℕ × List ℚ × List ℚ × List (List Pixel) ×
        ((ℕ → ℕ → ℚ) × (ℕ → ℕ → ℚ)) × ((ℕ → ℕ → ℚ) × (ℕ → ℕ → ℚ))) := do
  let data_sigclip := applyClip sigma_clip rows1
  let idx ← select_meshes p A data_sigclip
  let mesh_idx := idx.map (fun k => meshIdx1.getD k 0)
  let kept := idx.map (fun k => data_sigclip.getD k [])
  let bkg1d := kept.map bkgE
  let rms1d := kept.map rmsE
  let bkg2d :=
    if bkg1d.length = nboxes then make_2d_array nxboxes mesh_idx bkg1d
    else interpolate_meshes nxboxes mesh_idx bkg1d 10 wt
  let rms2d :=
    if rms1d.length = nboxes then make_2d_array nxboxes mesh_idx rms1d
    else interpolate_meshes nxboxes mesh_idx rms1d 10 wt
  let filtered :=
    if filter_size = (1, 1) then (bkg2d, rms2d)
    else filter_meshes nyboxes nxboxes filter_size.1 filter_size.2
      filter_threshold bkg2d rms2d
  Except.ok (mesh_idx, bkg1d, rms1d, kept, (bkg2d, rms2d), filtered)

/-- Construction `Background2D.__init__` (source lines 164-225) followed by the
`background` / `background_rms` properties: validate
`exclude_percentile`, clamp the box size, combine the masks, prepare
the data, compute the meshes, interpolate to full resolution and apply
the coverage fill. -/
def construct (cfg : Config) (H W : ℕ) (data : ℕ → ℕ → ℚ)
    (mask coverage_mask : Option (ℕ → ℕ → Bool)) :
    Except BkgError BkgResult := do
  if cfg.exclude_percentile < 0 ∨ 100 < cfg.exclude_percentile then
    Except.error BkgError.outOfRange
  else
    let boxH := min cfg.box.1 H
    let boxW := min cfg.box.2 W
    let A := boxH * boxW
    let ests := init_estimators cfg.bkg_estimator cfg.bkgrms_estimator
    let combined := combine_masks mask coverage_mask
    let prep ← prepare_data boxH boxW cfg.exclude_percentile
      cfg.edge_method H W data combined
    let nboxes := prep.nyboxes * prep.nxboxes
    let rows1 := prep.mesh_idx.map (fun i => prep.table.getD i [])
    let r ← calc_bkg_bkgrms cfg.exclude_percentile A nboxes prep.nxboxes
      cfg.filter_size cfg.filter_threshold cfg.sigma_clip
      ests.1.call ests.2.call cfg.idw_kernel rows1 prep.mesh_idx
      prep.nyboxes
    let (mesh_idx, bkg1d, rms1d, kept, unf, fil) := r
    let bkgSurf := apply_coverage_fill coverage_mask cfg.fill_value
      (cfg.interpolator prep.nyboxes prep.nxboxes boxH boxW fil.1)
    let rmsSurf := apply_coverage_fill coverage_mask cfg.fill_value
      (cfg.interpolator prep.nyboxes prep.nxboxes boxH boxW fil.2)
    Except.ok
      { nyboxes := prep.nyboxes, nxboxes := prep.nxboxes,
        nboxes := nboxes, mesh_idx := mesh_idx, bkg1d := bkg1d,
        rms1d := rms1d, data_sigclip := kept,
        mesh_unfiltered := unf.1, rms_mesh_unfiltered := unf.2,
        background_mesh := fil.1, background_rms_mesh := fil.2,
        background := bkgSurf, background_rms := rmsSurf }

section Claims

/-- C1: for every mesh, with `exclude_percentile` `p` in `[0, 100]` and
box area `A`, the mesh is included in the mesh index iff its
masked-pixel count `n` satisfies `n ≤ (p/100)·A` and `n ≠ A`; in
particular, with `p = 0` a mesh with `n = 1` is excluded, with `p = 100`
a mesh with `n = A - 1` is included, and a fully masked mesh (`n = A`)
is excluded for every `p`. -/
theorem C1_mesh_inclusion_boundary (p : ℚ) (A : ℕ)
    (table : List (List Pixel)) (idx : List ℕ)
    (hp0 : 0 ≤ p) (hp1 : p ≤ 100)
    (hsel : select_meshes p A table = .ok idx) :
    (∀ i (h : i < table.length),
      (i ∈ idx ↔
        ((countMasked (table.get ⟨i, h⟩) : ℚ) ≤ p / 100 * A
          ∧ countMasked (table.get ⟨i, h⟩) ≠ A)))
    ∧ meshIncluded 0 A 1 = false
    ∧ (1 ≤ A → meshIncluded 100 A (A - 1) = true)
    ∧ meshIncluded p A A = false := by
  refine ⟨fun i h => ?_, ?_, fun hA => ?_, ?_⟩
  · rw [mem_select_meshes p A table idx hsel i]
    constructor
    · rintro ⟨h', hf⟩
      simpa only [meshIncluded, threshold_npixels, Bool.and_eq_true,
        decide_eq_true_eq] using hf
    · intro hf
      refine ⟨h, ?_⟩
      simpa only [meshIncluded, threshold_npixels, Bool.and_eq_true,
        decide_eq_true_eq] using hf
  · norm_num [meshIncluded, threshold_npixels]
  · simp only [meshIncluded, threshold_npixels, Bool.and_eq_true,
      decide_eq_true_eq]
    refine ⟨?_, by omega⟩
    norm_num
  · simp [meshIncluded]

/-- Witness for C1 at `p = 50`, `A = 2` and a one-mesh table whose mesh
has one masked pixel. -/
theorem C1_mesh_inclusion_boundary_witness :
    0 ∈ ([0] : List ℕ) ↔
      ((countMasked ([[((5 : ℚ), false), (5, true)]].get
            ⟨0, by simp⟩) : ℚ) ≤ 50 / 100 * 2
        ∧ countMasked ([[((5 : ℚ), false), (5, true)]].get
            ⟨0, by simp⟩) ≠ 2) := by
  have hsel : select_meshes 50 2 [[((5 : ℚ), false), (5, true)]] =
      .ok [0] := by
    norm_num [select_meshes, meshIncluded, threshold_npixels, countMasked,
      List.enum]
  exact (C1_mesh_inclusion_boundary 50 2 _ [0] (by norm_num) (by norm_num)
    hsel).1 0 (by simp)

end Claims

section C2Helpers

lemma bind_error {α β : Type} (e : BkgError)
    (f : α → Except BkgError β) :
    (Except.error e >>= f) = Except.error e := rfl

lemma bind_ok {α β : Type} (a : α) (f : α → Except BkgError β) :
    (Except.ok a >>= f) = f a := rfl

lemma bind_eq_ok {α β : Type} {m : Except BkgError α}
    {f : α → Except BkgError β} {b : β} (h : (m >>= f) = .ok b) :
    ∃ a, m = .ok a ∧ f a = .ok b := by
  cases m with
  | error e => rw [bind_error] at h; exact Except.noConfusion h
  | ok a => exact ⟨a, rfl, h⟩

lemma countMasked_eq_length (row : List Pixel)
    (h : ∀ px ∈ row, px.2 = true) : countMasked row = row.length := by
  unfold countMasked
  rw [List.filter_eq_self.mpr h]

lemma meshIncluded_full (p : ℚ) (A : ℕ) : meshIncluded p A A = false := by
  simp [meshIncluded]

lemma select_meshes_error_of_none (p : ℚ) (A : ℕ)
    (table : List (List Pixel))
    (h : ∀ row ∈ table, meshIncluded p A (countMasked row) = false) :
    select_meshes p A table =
      .error (.allMeshesExcluded (threshold_npixels p A) p) := by
  unfold select_meshes
  have hnil : table.enum.filter
      (fun e => meshIncluded p A (countMasked e.2)) = [] := by
    rw [List.filter_eq_nil_iff]
    rintro ⟨i, row⟩ he
    have hrow : row ∈ table := by
      have := List.mk_mem_enum_iff_getElem?.mp he
      exact List.getElem?_mem this
    simp [h row hrow]
  simp [hnil]

lemma mesh_table_row_length (bh bw ny nx : ℕ) (g : MaskedGrid) :
    ∀ row ∈ mesh_table bh bw ny nx g, row.length = bh * bw := by
  intro row hrow
  rcases List.mem_map.mp hrow with ⟨i, _, rfl⟩
  simp

lemma mesh_table_all_masked (bh bw ny nx : ℕ) (g : MaskedGrid)
    (hg : ∀ y x, g.msk y x = true) :
    ∀ row ∈ mesh_table bh bw ny nx g, ∀ px ∈ row, px.2 = true := by
  intro row hrow px hpx
  rcases List.mem_map.mp hrow with ⟨i, _, rfl⟩
  rcases List.mem_map.mp hpx with ⟨j, _, rfl⟩
  exact hg _ _

lemma select_mesh_table_all_masked (p : ℚ) (bh bw ny nx : ℕ)
    (g : MaskedGrid) (hg : ∀ y x, g.msk y x = true) :
    select_meshes p (bh * bw) (mesh_table bh bw ny nx g) =
      .error (.allMeshesExcluded (threshold_npixels p (bh * bw)) p) := by
  apply select_meshes_error_of_none
  intro row hrow
  rw [countMasked_eq_length row (mesh_table_all_masked bh bw ny nx g hg
    row hrow), mesh_table_row_length bh bw ny nx g row hrow]
  exact meshIncluded_full p (bh * bw)

lemma prepare_data_all_masked (bh bw : ℕ) (p : ℚ) (edge : String)
    (H W : ℕ) (data : ℕ → ℕ → ℚ) (m : ℕ → ℕ → Bool)
    (hm : ∀ y x, m y x = true)
    (hedge : edge = "pad" ∨ edge = "crop") :
    prepare_data bh bw p edge H W data (some m) =
      .error (.allMeshesExcluded (threshold_npixels p (bh * bw)) p) := by
  unfold prepare_data
  by_cases h0 : W % bw + H % bh = 0
  · rw [if_pos h0, bind_ok]
    have hsel := select_mesh_table_all_masked p bh bw (H / bh) (W / bw)
      ⟨H, W, data, maskFun (some m)⟩ (fun y x => hm y x)
    simp only [hsel, bind_error]
  · rw [if_neg h0]
    rcases hedge with hedge | hedge
    · rw [if_pos hedge, bind_ok]
      have hmsk : ∀ y x, (pad_data bh bw H W data (some m)).msk y x =
          true := by
        intro y x
        simp only [pad_data]
        by_cases hin : y < H ∧ x < W <;> simp [hin, hm]
      have hsel := select_mesh_table_all_masked p bh bw
        ((pad_data bh bw H W data (some m)).ny / bh)
        ((pad_data bh bw H W data (some m)).nx / bw)
        (pad_data bh bw H W data (some m)) hmsk
      simp only [hsel, bind_error]
    · have hnp : ¬edge = "pad" := by rw [hedge]; decide
      rw [if_neg hnp, if_pos hedge, bind_ok]
      have hmsk : ∀ y x, (crop_data bh bw H W data (some m)).msk y x =
          true := by
        intro y x
        exact hm y x
      have hsel := select_mesh_table_all_masked p bh bw
        ((crop_data bh bw H W data (some m)).ny / bh)
        ((crop_data bh bw H W data (some m)).nx / bw)
        (crop_data bh bw H W data (some m)) hmsk
      simp only [hsel, bind_error]

end C2Helpers

section Claims2

/-- C2: whenever mesh selection yields an empty mesh index — in
particular for a fully masked image, for every percentile and on either
selection pass — the pipeline fails with `allMeshesExcluded`, carrying
the effective numeric pixel threshold and the configured percentile,
and no surfaces are produced (the construction returns an error, not a
result). -/
theorem C2_all_meshes_excluded (cfg : Config) (H W : ℕ)
    (data : ℕ → ℕ → ℚ) (cov : Option (ℕ → ℕ → Bool))
    (hp0 : 0 ≤ cfg.exclude_percentile)
    (hp1 : cfg.exclude_percentile ≤ 100)
    (hedge : cfg.edge_method = "pad" ∨ cfg.edge_method = "crop") :
    construct cfg H W data (some (fun _ _ => true)) cov =
      .error (.allMeshesExcluded
        (threshold_npixels cfg.exclude_percentile
          (min cfg.box.1 H * min cfg.box.2 W))
        cfg.exclude_percentile)
    ∧ (∀ (p : ℚ) (A : ℕ) (rows : List (List Pixel)),
        (∀ row ∈ rows, meshIncluded p A (countMasked row) = false) →
        select_meshes p A rows =
          .error (.allMeshesExcluded (threshold_npixels p A) p))
    ∧ (∀ (p : ℚ) (A nboxes nxboxes : ℕ) (fs : ℕ × ℕ) (ft : Option ℚ)
        (f : List Pixel → List Pixel) (bkgE rmsE : List Pixel → ℚ)
        (wt : ℚ → ℚ) (rows1 : List (List Pixel)) (meshIdx1 : List ℕ)
        (nyb : ℕ),
        (∀ row ∈ rows1.map f, meshIncluded p A (countMasked row) = false) →
        calc_bkg_bkgrms p A nboxes nxboxes fs ft (some f) bkgE rmsE wt
          rows1 meshIdx1 nyb =
          .error (.allMeshesExcluded (threshold_npixels p A) p)) := by
  refine ⟨?_, select_meshes_error_of_none, ?_⟩
  · have hcomb : ∃ m, combine_masks (some (fun _ _ => true)) cov = some m
        ∧ ∀ y x, m y x = true := by
      cases cov with
      | none => exact ⟨_, rfl, fun y x => rfl⟩
      | some c => exact ⟨_, rfl, fun y x => rfl⟩
    obtain ⟨m, hmeq, hm⟩ := hcomb
    unfold construct
    rw [if_neg (by push_neg; constructor <;> [exact hp0; exact hp1])]
    have hprep := prepare_data_all_masked (min cfg.box.1 H)
      (min cfg.box.2 W) cfg.exclude_percentile cfg.edge_method H W data m
      hm hedge
    simp only [hmeq, hprep, bind_error]
  · intro p A nboxes nxboxes fs ft f bkgE rmsE wt rows1 meshIdx1 nyb hrows
    unfold calc_bkg_bkgrms
    simp only [applyClip, select_meshes_error_of_none p A (rows1.map f)
      hrows, bind_error]

/-- Witness for C2 on a concrete 1×1 fully masked image. -/
theorem C2_all_meshes_excluded_witness :
    construct
      { box := (1, 1), exclude_percentile := 10, filter_size := (3, 3),
        filter_threshold := none, edge_method := "pad", fill_value := 0,
        sigma_clip := none, bkg_estimator := ⟨none, fun _ => 0⟩,
        bkgrms_estimator := ⟨none, fun _ => 0⟩, idw_kernel := fun _ => 0,
        interpolator := fun _ _ _ _ g => g }
      1 1 (fun _ _ => 0) (some (fun _ _ => true)) none =
      .error (.allMeshesExcluded (threshold_npixels 10 (min 1 1 * min 1 1))
        10) :=
  (C2_all_meshes_excluded _ 1 1 _ none (by norm_num) (by norm_num)
    (Or.inl rfl)).1

end Claims2

section C3Helpers

lemma pad_ceil (n b : ℕ) (hb : 0 < b) :
    n + (if 0 < n % b then b - n % b else 0) = (n + b - 1) / b * b := by
  by_cases h : n % b = 0
  · simp [h]
    obtain ⟨q, rfl⟩ := Nat.dvd_of_mod_eq_zero h
    have h1 : b * q + b - 1 = b * q + (b - 1) := by omega
    have hd : (b - 1) / b = 0 := Nat.div_eq_of_lt (by omega)
    rw [h1, Nat.mul_add_div hb, hd]
    ring
  · rw [if_pos (Nat.pos_of_ne_zero h)]
    have hn := Nat.div_add_mod n b
    have hr1 : 1 ≤ n % b := Nat.pos_of_ne_zero h
    have hrb : n % b < b := Nat.mod_lt n hb
    have hb1 : b * (n / b + 1) = b * (n / b) + b := by ring
    have h1 : n + b - 1 = b * (n / b + 1) + (n % b - 1) := by omega
    have hd : (n % b - 1) / b = 0 := Nat.div_eq_of_lt (by omega)
    rw [h1, Nat.mul_add_div hb, hd]
    have hb2 : (n / b + 1 + 0) * b = b * (n / b) + b := by ring
    omega

lemma pad_mask_char (bh bw H W : ℕ) (data : ℕ → ℕ → ℚ)
    (mask : Option (ℕ → ℕ → Bool)) (y x : ℕ) :
    (pad_data bh bw H W data mask).msk y x =
      if y < H ∧ x < W then maskFun mask y x else true := by
  cases mask with
  | none =>
    simp only [pad_data, maskFun]
    generalize (if 0 < H % bh then bh - H % bh else 0) = yp
    generalize (if 0 < W % bw then bw - W % bw else 0) = xp
    have hy : H + yp - yp = H := by omega
    have hx : W + xp - xp = W := by omega
    rw [hy, hx]
    by_cases hin : y < H ∧ x < W
    · rw [if_pos hin]
      simp only [Bool.or_eq_false_iff, decide_eq_false_iff_not]
      omega
    · rw [if_neg hin]
      simp only [Bool.or_eq_true, decide_eq_true_eq]
      omega
  | some m =>
    simp only [pad_data, maskFun]
    generalize (if 0 < H % bh then bh - H % bh else 0) = yp
    generalize (if 0 < W % bw then bw - W % bw else 0) = xp
    have hy : H + yp - yp = H := by omega
    have hx : W + xp - xp = W := by omega
    rw [hy, hx]
    by_cases hin : y < H ∧ x < W
    · rw [if_pos hin]
      have h1 : ¬(H ≤ y) := by omega
      have h2 : ¬(W ≤ x) := by omega
      simp [h1, h2]
    · rw [if_neg hin]
      simp

end C3Helpers

section Claims3

/-- C3: for image shape `(H, W)` and clamped box `(bh, bw)`: padding
yields shape `(⌈H/bh⌉·bh, ⌈W/bw⌉·bw)` with the combined mask `true`
over exactly the padded trailing region (and the original mask
elsewhere); cropping yields shape `(⌊H/bh⌋·bh, ⌊W/bw⌋·bw)`; and when
`H` and `W` are exact multiples no resize occurs: the prepared grid is
the original data and mask unchanged. -/
theorem C3_resize_exactness (H W bh bw : ℕ) (hbh : 0 < bh)
    (hbw : 0 < bw) (data : ℕ → ℕ → ℚ) (mask : Option (ℕ → ℕ → Bool)) :
    ((pad_data bh bw H W data mask).ny = (H + bh - 1) / bh * bh
      ∧ (pad_data bh bw H W data mask).nx = (W + bw - 1) / bw * bw)
    ∧ (∀ y x, (pad_data bh bw H W data mask).msk y x =
        if y < H ∧ x < W then maskFun mask y x else true)
    ∧ ((crop_data bh bw H W data mask).ny = H / bh * bh
      ∧ (crop_data bh bw H W data mask).nx = W / bw * bw)
    ∧ (H % bh = 0 → W % bw = 0 → ∀ (p : ℚ) (edge : String)
        (prep : Prepared),
        prepare_data bh bw p edge H W data mask = .ok prep →
        prep.grid = ⟨H, W, data, maskFun mask⟩) := by
  refine ⟨⟨?_, ?_⟩, pad_mask_char bh bw H W data mask, ⟨rfl, rfl⟩, ?_⟩
  · exact pad_ceil H bh hbh
  · exact pad_ceil W bw hbw
  · intro hH hW p edge prep hp
    unfold prepare_data at hp
    rw [if_pos (by omega), bind_ok] at hp
    cases hsel : select_meshes p (bh * bw)
        (mesh_table bh bw (H / bh) (W / bw)
          ⟨H, W, data, maskFun mask⟩) with
    | error e =>
      simp only [hsel, bind_error] at hp
      exact Except.noConfusion hp
    | ok idx =>
      simp only [hsel, bind_ok] at hp
      cases hp
      rfl

/-- Witness for C3 at a 3×3 image with 2×2 boxes. -/
theorem C3_resize_exactness_witness :
    ((pad_data 2 2 3 3 (fun _ _ => (0 : ℚ)) none).ny =
        (3 + 2 - 1) / 2 * 2
      ∧ (pad_data 2 2 3 3 (fun _ _ => (0 : ℚ)) none).nx =
        (3 + 2 - 1) / 2 * 2)
    ∧ (crop_data 2 2 3 3 (fun _ _ => (0 : ℚ)) none).ny = 3 / 2 * 2 :=
  ⟨(C3_resize_exactness 3 3 2 2 (by norm_num) (by norm_num) _ none).1,
    (C3_resize_exactness 3 3 2 2 (by norm_num) (by norm_num) _
      none).2.2.1.1⟩

end Claims3

/-- A concrete coverage mask (the right pixel of each row) used by
concrete instantiations below. -/
def covEx : ℕ → ℕ → Bool := fun _ x => decide (1 ≤ x)

/-- A concrete configuration used by concrete instantiations below. -/
def cfgEx : Config :=
  { box := (1, 2), exclude_percentile := 100, filter_size := (1, 1),
    filter_threshold := none, edge_method := "pad", fill_value := 5,
    sigma_clip := none, bkg_estimator := ⟨none, fun _ => 3⟩,
    bkgrms_estimator := ⟨none, fun _ => 2⟩, idw_kernel := fun _ => 1,
    interpolator := fun _ _ _ _ g => g }

section Claims4

/-- C4: for every successful estimation, every pixel where the
no-coverage mask is `true` equals `fill_value` in both the final
background surface and the final background RMS surface, for every
configuration, data, bad-pixel mask, and whatever the interpolation
stages computed. -/
theorem C4_coverage_fill (cfg : Config) (H W : ℕ) (data : ℕ → ℕ → ℚ)
    (mask : Option (ℕ → ℕ → Bool)) (c : ℕ → ℕ → Bool) (res : BkgResult)
    (h : construct cfg H W data mask (some c) = .ok res)
    (y x : ℕ) (hc : c y x = true) :
    res.background y x = cfg.fill_value
    ∧ res.background_rms y x = cfg.fill_value := by
  unfold construct at h
  by_cases hp : cfg.exclude_percentile < 0 ∨ 100 < cfg.exclude_percentile
  · rw [if_pos hp] at h
    exact Except.noConfusion h
  · rw [if_neg hp] at h
    dsimp only at h
    obtain ⟨prep, hprep, h⟩ := bind_eq_ok h
    obtain ⟨r, hcalc, h⟩ := bind_eq_ok h
    obtain ⟨mi, b1, r1, kept, unf, fil⟩ := r
    rw [Except.ok.injEq] at h
    subst h
    exact ⟨by simp [apply_coverage_fill, hc], by
      simp [apply_coverage_fill, hc]⟩

/-- Witness for C4 on a concrete 1×2 image whose coverage mask covers
the right pixel: both final surfaces there equal `fill_value = 5`. -/
theorem C4_coverage_fill_witness :
    apply_coverage_fill (some covEx) 5 (make_2d_array 1 [0] [3]) 0 1 = 5
    ∧ apply_coverage_fill (some covEx) 5 (make_2d_array 1 [0] [2]) 0 1
      = 5 := by
  have h : construct cfgEx 1 2 (fun _ _ => 9) none (some covEx) = .ok
      ⟨1, 1, 1, [0], [3], [2],
        [List.map (fun j => (9, decide (1 ≤ j % 2))) (List.range 2)],
        make_2d_array 1 [0] [3], make_2d_array 1 [0] [2],
        make_2d_array 1 [0] [3], make_2d_array 1 [0] [2],
        apply_coverage_fill (some covEx) 5 (make_2d_array 1 [0] [3]),
        apply_coverage_fill (some covEx) 5 (make_2d_array 1 [0] [2])⟩ := by
    norm_num [construct, cfgEx, covEx, prepare_data, select_meshes,
      mesh_table, meshIncluded, threshold_npixels, countMasked,
      calc_bkg_bkgrms, combine_masks, maskFun, init_estimators,
      List.enum, List.enumFrom, List.filter, bind_ok, bind_error, applyClip]
  exact C4_coverage_fill cfgEx 1 2 (fun _ _ => 9) none covEx _ h 0 1
    (by norm_num [covEx])

end Claims4

section C9Helpers

lemma prepare_data_invalid_edge (bh bw : ℕ) (p : ℚ) (edge : String)
    (H W : ℕ) (data : ℕ → ℕ → ℚ) (mask : Option (ℕ → ℕ → Bool))
    (h0 : ¬(W % bw + H % bh = 0)) (h1 : edge ≠ "pad")
    (h2 : edge ≠ "crop") :
    prepare_data bh bw p edge H W data mask =
      .error .invalidEdgePolicy := by
  unfold prepare_data
  rw [if_neg h0, if_neg h1, if_neg h2, bind_error]

end C9Helpers

section Claims9

/-- C9 (amended): a construction request whose `edge_method` is neither
`pad` nor `crop` fails with `invalidEdgePolicy` exactly when a resize
is actually needed, i.e. when the image dimensions are not both exact
multiples of the clamped box size; when they are exact multiples,
`edge_method` is never consulted and no such error is raised (see the
counterexample). -/
theorem C9_invalid_edge_method (cfg : Config) (H W : ℕ)
    (data : ℕ → ℕ → ℚ) (mask cov : Option (ℕ → ℕ → Bool))
    (hp0 : 0 ≤ cfg.exclude_percentile)
    (hp1 : cfg.exclude_percentile ≤ 100)
    (h1 : cfg.edge_method ≠ "pad") (h2 : cfg.edge_method ≠ "crop")
    (hres : ¬(H % min cfg.box.1 H = 0 ∧ W % min cfg.box.2 W = 0)) :
    construct cfg H W data mask cov = .error .invalidEdgePolicy := by
  unfold construct
  rw [if_neg (by push_neg; constructor <;> [exact hp0; exact hp1])]
  dsimp only
  rw [prepare_data_invalid_edge (min cfg.box.1 H) (min cfg.box.2 W)
    cfg.exclude_percentile cfg.edge_method H W data
    (combine_masks mask cov) (by omega) h1 h2, bind_error]

/-- Witness for the amended C9: a 3×3 image with clamped 2×2 boxes and
an invalid edge method fails with `invalidEdgePolicy`. -/
theorem C9_invalid_edge_method_witness :
    construct { cfgEx with edge_method := "diag", box := (2, 2) } 3 3
      (fun _ _ => 9) none none = .error .invalidEdgePolicy :=
  C9_invalid_edge_method _ 3 3 _ none none
    (by norm_num [cfgEx]) (by norm_num [cfgEx])
    (by decide) (by decide) (by norm_num [cfgEx])

/-- Counterexample to C9 as stated: with an invalid `edge_method` but an
image whose dimensions are exact multiples of the box size, no resize is
needed, the edge method is never consulted, and construction succeeds
instead of failing with `invalidEdgePolicy`. -/
theorem C9_counterexample :
    ({ cfgEx with edge_method := "diag" } : Config).edge_method ≠ "pad"
    ∧ ({ cfgEx with edge_method := "diag" } : Config).edge_method ≠ "crop"
    ∧ (construct { cfgEx with edge_method := "diag" } 1 2 (fun _ _ => 9)
        none none).isOk = true := by
  refine ⟨by decide, by decide, ?_⟩
  norm_num [construct, cfgEx, prepare_data, select_meshes, mesh_table,
    meshIncluded, threshold_npixels, countMasked, calc_bkg_bkgrms,
    combine_masks, maskFun, init_estimators, List.enum, List.enumFrom,
    List.filter, bind_ok, bind_error, applyClip, Except.isOk, Except.toBool]

end Claims9

section Claims10

/-- Counterexample to C10 as stated: construction mutates the
caller-supplied estimator objects — after `__init__`, the supplied
`bkg_estimator`'s `sigma_clip` attribute has been reassigned (to
`None`), so it is not unchanged. -/
theorem C10_counterexample :
    (init_estimators ⟨some (fun r => r), fun _ => 0⟩
        ⟨some (fun r => r), fun _ => 0⟩).1.sigma_clip ≠
      (⟨some (fun r => r), fun _ => 0⟩ : Estimator).sigma_clip := by
  simp [init_estimators]

/-- C10 (amended): construction mutates the two supplied estimator
objects, and only them, by assigning `None` to their `sigma_clip`
attribute (the documented override making the `sigma_clip` argument
authoritative); their callable behaviour is unchanged arguments, and
the image, masks and sigma-clip argument are not written anywhere in
the pipeline. -/
theorem C10_estimator_sigma_clip_reset (b r : Estimator) :
    (init_estimators b r).1.sigma_clip = none
    ∧ (init_estimators b r).2.sigma_clip = none
    ∧ (init_estimators b r).1.call = b.call
    ∧ (init_estimators b r).2.call = r.call :=
  ⟨rfl, rfl, rfl, rfl⟩

end Claims10

section C8Helpers

/-- The pointwise "more masked" relation between pixels: same value,
and any pixel masked on the left is masked on the right. -/
def pixelSubmask (a b : Pixel) : Prop :=
  a.1 = b.1 ∧ (a.2 = true → b.2 = true)

lemma countMasked_cons (px : Pixel) (r : List Pixel) :
    countMasked (px :: r) =
      (if px.2 = true then 1 else 0) + countMasked r := by
  by_cases h : px.2 = true <;>
    simp [countMasked, List.filter_cons, h, Nat.add_comm]

lemma countMasked_mono (r1 r2 : List Pixel)
    (h : List.Forall₂ pixelSubmask r1 r2) :
    countMasked r1 ≤ countMasked r2 := by
  induction h with
  | nil => exact le_refl _
  | cons hab htl ih =>
    rename_i a b l1 l2
    rw [countMasked_cons, countMasked_cons]
    rcases hab with ⟨-, hm⟩
    by_cases ha : a.2 = true
    · rw [if_pos ha, if_pos (hm ha)]
      omega
    · rw [if_neg ha]
      split <;> omega

lemma countMasked_le_length (r : List Pixel) :
    countMasked r ≤ r.length :=
  List.length_filter_le _ r

end C8Helpers

section Claims8

/-- C8: for two mesh tables built from the same data but with the
second mask covering a superset of the first's masked pixels
(pointwise `pixelSubmask`), every mesh selected under the larger mask
is also selected under the smaller one: the mesh index is
monotonically narrowed by masking. -/
theorem C8_mask_monotonicity (p : ℚ) (A : ℕ)
    (t1 t2 : List (List Pixel)) (idx1 idx2 : List ℕ)
    (hp1 : p ≤ 100)
    (hrel : List.Forall₂ (List.Forall₂ pixelSubmask) t1 t2)
    (h1 : select_meshes p A t1 = .ok idx1)
    (h2 : select_meshes p A t2 = .ok idx2) :
    ∀ i ∈ idx2, i ∈ idx1 := by
  intro i hi
  rw [mem_select_meshes p A t2 idx2 h2] at hi
  obtain ⟨hlen2, hinc2⟩ := hi
  have hlen : t1.length = t2.length := List.Forall₂.length_eq hrel
  have hlen1 : i < t1.length := by omega
  rw [mem_select_meshes p A t1 idx1 h1]
  refine ⟨hlen1, ?_⟩
  have hrow : List.Forall₂ pixelSubmask (t1.get ⟨i, hlen1⟩)
      (t2.get ⟨i, hlen2⟩) :=
    (List.forall₂_iff_get.mp hrel).2 i hlen1 hlen2
  have hmono := countMasked_mono _ _ hrow
  simp only [meshIncluded, threshold_npixels, Bool.and_eq_true,
    decide_eq_true_eq] at hinc2 ⊢
  obtain ⟨hle2, hne2⟩ := hinc2
  set n1 := countMasked (t1.get ⟨i, hlen1⟩) with hn1
  set n2 := countMasked (t2.get ⟨i, hlen2⟩) with hn2
  have hcast : (n1 : ℚ) ≤ (n2 : ℚ) := by exact_mod_cast hmono
  refine ⟨le_trans hcast hle2, ?_⟩
  intro hEq
  apply hne2
  have hAn2 : (A : ℚ) ≤ (n2 : ℚ) := by
    rw [← hEq]
    exact hcast
  have hthr : (n2 : ℚ) ≤ (A : ℚ) := by
    calc (n2 : ℚ) ≤ p / 100 * A := hle2
    _ ≤ 1 * A := by
        apply mul_le_mul_of_nonneg_right _ (by positivity)
        linarith
    _ = A := one_mul _
  have : (n2 : ℚ) = (A : ℚ) := le_antisymm hthr hAn2
  exact_mod_cast this

/-- Witness for C8: the only mesh, included under both a lighter and a
heavier mask, is in both indices. -/
theorem C8_mask_monotonicity_witness : 0 ∈ ([0] : List ℕ) := by
  have h1 : select_meshes 50 2 [[((9 : ℚ), false), (9, false)]] =
      .ok [0] := by
    norm_num [select_meshes, meshIncluded, threshold_npixels, countMasked,
      List.enum]
  have h2 : select_meshes 50 2 [[((9 : ℚ), false), (9, true)]] =
      .ok [0] := by
    norm_num [select_meshes, meshIncluded, threshold_npixels, countMasked,
      List.enum]
  have hrel : List.Forall₂ (List.Forall₂ pixelSubmask)
      [[((9 : ℚ), false), (9, false)]] [[((9 : ℚ), false), (9, true)]] := by
    refine List.Forall₂.cons ?_ List.Forall₂.nil
    refine List.Forall₂.cons ⟨rfl, fun h => h⟩ ?_
    exact List.Forall₂.cons ⟨rfl, fun _ => rfl⟩ List.Forall₂.nil
  exact C8_mask_monotonicity 50 2 _ _ [0] [0] (by norm_num) hrel
    h1 h2 0 (by simp)

end Claims8

section C7Helpers

lemma select_meshes_sublist_range (p : ℚ) (A : ℕ)
    (table : List (List Pixel)) (idx : List ℕ)
    (h : select_meshes p A table = .ok idx) :
    idx.Sublist (List.range table.length) := by
  unfold select_meshes at h
  by_cases hempty : ((table.enum.filter
      (fun e => meshIncluded p A (countMasked e.2))).map Prod.fst).isEmpty
  · simp [hempty] at h
  · simp only [hempty, Bool.false_eq_true, not_false_iff, if_false] at h
    cases h
    have h0 : (table.enum.filter
        (fun e => meshIncluded p A (countMasked e.2))).Sublist
        table.enum := List.filter_sublist _
    have h1 := h0.map Prod.fst
    rwa [List.enum_map_fst] at h1

lemma map_getD_range (l : List ℕ) :
    (List.range l.length).map (fun k => l.getD k 0) = l := by
  apply List.ext_get
  · simp
  · intro n h1 h2
    simp only [List.get_map, List.get_range]
    exact List.getD_eq_get l 0 h2

lemma exists_unmasked (row : List Pixel)
    (h : countMasked row ≠ row.length) :
    ∃ px ∈ row, px.2 = false := by
  by_contra hall
  push_neg at hall
  refine h (countMasked_eq_length row (fun px hpx => ?_))
  have := hall px hpx
  cases hb : px.2 with
  | false => exact absurd hb this
  | true => rfl

end C7Helpers

section Claims7

/-- C7: the mesh selector runs a second time on the sigma-clipped rows,
and the post-clipping mesh index is a sublist of the pre-clipping mesh
index (never widened, order preserved, hence still strictly ascending
when the first index is); every surviving mesh row has at least one
unmasked pixel (a fully masked mesh never contributes), and the
`background_1d`/`rms_1d` outputs are aligned one-to-one with the final
mesh index. -/
theorem C7_post_clip_narrowing (p : ℚ) (A nboxes nxboxes : ℕ)
    (fs : ℕ × ℕ) (ft : Option ℚ) (f : List Pixel → List Pixel)
    (bkgE rmsE : List Pixel → ℚ) (wt : ℚ → ℚ)
    (rows1 : List (List Pixel)) (meshIdx1 : List ℕ) (nyb : ℕ)
    (r : List ℕ × List ℚ × List ℚ × List (List Pixel) ×
      ((ℕ → ℕ → ℚ) × (ℕ → ℕ → ℚ)) × ((ℕ → ℕ → ℚ) × (ℕ → ℕ → ℚ)))
    (hlen : rows1.length = meshIdx1.length)
    (hsort : meshIdx1.Pairwise (· < ·))
    (hlenA : ∀ row ∈ rows1, row.length = A)
    (hf : ∀ row, (f row).length = row.length)
    (hcalc : calc_bkg_bkgrms p A nboxes nxboxes fs ft (some f) bkgE rmsE
      wt rows1 meshIdx1 nyb = .ok r) :
    r.1.Sublist meshIdx1
    ∧ r.1.Pairwise (· < ·)
    ∧ (∀ row ∈ r.2.2.2.1, ∃ px ∈ row, px.2 = false)
    ∧ r.2.1.length = r.1.length
    ∧ r.2.2.1.length = r.1.length := by
  unfold calc_bkg_bkgrms at hcalc
  dsimp only [applyClip] at hcalc
  obtain ⟨idx, hsel, hok⟩ := bind_eq_ok hcalc
  rw [Except.ok.injEq] at hok
  subst hok
  have hsub : idx.Sublist (List.range (rows1.map f).length) :=
    select_meshes_sublist_range p A _ idx hsel
  rw [List.length_map, hlen] at hsub
  have hmesh : (idx.map (fun k => meshIdx1.getD k 0)).Sublist meshIdx1 := by
    have h2 := hsub.map (fun k => meshIdx1.getD k 0)
    rwa [map_getD_range meshIdx1] at h2
  refine ⟨hmesh, List.Pairwise.sublist hmesh hsort, ?_, by simp, by simp⟩
  intro row hrow
  rcases List.mem_map.mp hrow with ⟨k, hk, rfl⟩
  have hinc := (mem_select_meshes p A _ idx hsel k).mp hk
  obtain ⟨hk2, hincl⟩ := hinc
  have hgetD : (rows1.map f).getD k [] = (rows1.map f).get ⟨k, hk2⟩ :=
    List.getD_eq_get _ [] hk2
  have hk3 : k < rows1.length := by
    rw [List.length_map] at hk2
    exact hk2
  have hrowlen : ((rows1.map f).get ⟨k, hk2⟩).length = A := by
    rw [List.get_map, hf]
    exact hlenA _ (List.get_mem rows1 k hk3)
  have hne : countMasked ((rows1.map f).get ⟨k, hk2⟩) ≠ A := by
    simp only [meshIncluded, Bool.and_eq_true, decide_eq_true_eq] at hincl
    exact hincl.2
  rw [hgetD]
  apply exists_unmasked
  rw [hrowlen]
  exact hne

/-- Witness for C7 at a concrete one-mesh table with the identity as
sigma-clipping. -/
theorem C7_post_clip_narrowing_witness :
    ([0] : List ℕ).Sublist [0]
    ∧ ([0] : List ℕ).Pairwise (· < ·)
    ∧ (∀ row ∈ [[((9 : ℚ), false), (9, false)]], ∃ px ∈ row,
        px.2 = false)
    ∧ ([(3 : ℚ)] : List ℚ).length = ([0] : List ℕ).length
    ∧ ([(2 : ℚ)] : List ℚ).length = ([0] : List ℕ).length := by
  have hcalc : calc_bkg_bkgrms 50 2 1 1 (1, 1) none
      (some (fun r => r)) (fun _ => 3) (fun _ => 2) (fun _ => 1)
      [[((9 : ℚ), false), (9, false)]] [0] 1 =
      .ok ([0], [3], [2], [[((9 : ℚ), false), (9, false)]],
        (make_2d_array 1 [0] [3], make_2d_array 1 [0] [2]),
        (make_2d_array 1 [0] [3], make_2d_array 1 [0] [2])) := by
    norm_num [calc_bkg_bkgrms, select_meshes, meshIncluded,
      threshold_npixels, countMasked, List.enum, List.enumFrom,
      List.filter, bind_ok, bind_error, applyClip]
  exact C7_post_clip_narrowing 50 2 1 1 (1, 1) none (fun r => r)
    (fun _ => 3) (fun _ => 2) (fun _ => 1)
    [[((9 : ℚ), false), (9, false)]] [0] 1 _ rfl (by simp)
    (by intro row hrow; rw [List.mem_singleton] at hrow; simp [hrow])
    (fun _ => rfl) hcalc

end Claims7

section C5Helpers

lemma applyClip_length (sc : Option (List Pixel → List Pixel))
    (rows : List (List Pixel)) :
    (applyClip sc rows).length = rows.length := by
  cases sc <;> simp [applyClip]

lemma shepard_exact (known : List ((ℕ × ℕ) × ℚ)) (k : ℕ) (wt : ℚ → ℚ)
    (target : ℕ × ℕ) (v : ℚ) (hmem : (target, v) ∈ known)
    (hnodup : (known.map Prod.fst).Nodup) :
    shepard_idw known k wt target = v := by
  unfold shepard_idw
  cases hfind : known.find? (fun e => e.1 == target) with
  | none =>
    exfalso
    have := List.find?_eq_none.mp hfind (target, v) hmem
    simp at this
  | some e =>
    have hemem := List.mem_of_find?_eq_some hfind
    have heq : e.1 = target := by
      have := List.find?_some hfind
      simpa using this
    have hinj := List.inj_on_of_nodup_map hnodup
    have he : e = (target, v) := hinj hemem hmem (by rw [heq])
    rw [he]

lemma unravel_inj (nx : ℕ) (hnx : 0 < nx) (a b : ℕ)
    (h : (a / nx, a % nx) = (b / nx, b % nx)) : a = b := by
  have h1 := congrArg Prod.fst h
  have h2 := congrArg Prod.snd h
  simp only at h1 h2
  have ha := Nat.div_add_mod a nx
  have hb := Nat.div_add_mod b nx
  have h3 : nx * (a / nx) = nx * (b / nx) := by rw [h1]
  omega

end C5Helpers

section Claims5

/-- C5: the IDW gap-filling branch of `_calc_bkg_bkgrms` is taken iff
the final mesh index has fewer entries than `n_boxes` (when the index
is complete, the low-resolution grids are built by a direct scatter of
`background_1d`/`rms_1d` with no interpolation); and IDW interpolation
evaluated at a known coordinate returns that coordinate's value exactly
(the distance-zero short-circuit), for every weight kernel — hence
every `power` and `reg` — both for `shepard_idw` on arbitrary distinct
known points and for `_interpolate_meshes` at an included mesh's
`(row, col)` coordinate. -/
theorem C5_gap_filler (p : ℚ) (A nboxes nxboxes : ℕ) (fs : ℕ × ℕ)
    (ft : Option ℚ) (sc : Option (List Pixel → List Pixel))
    (bkgE rmsE : List Pixel → ℚ) (wt : ℚ → ℚ)
    (rows1 : List (List Pixel)) (meshIdx1 : List ℕ) (nyb : ℕ)
    (r : List ℕ × List ℚ × List ℚ × List (List Pixel) ×
      ((ℕ → ℕ → ℚ) × (ℕ → ℕ → ℚ)) × ((ℕ → ℕ → ℚ) × (ℕ → ℕ → ℚ)))
    (hlen : rows1.length = meshIdx1.length)
    (hsub : meshIdx1.Sublist (List.range nboxes))
    (hcalc : calc_bkg_bkgrms p A nboxes nxboxes fs ft sc bkgE rmsE
      wt rows1 meshIdx1 nyb = .ok r) :
    r.1.length ≤ nboxes
    ∧ (r.1.length = nboxes →
        r.2.2.2.2.1 = (make_2d_array nxboxes r.1 r.2.1,
          make_2d_array nxboxes r.1 r.2.2.1))
    ∧ (r.1.length < nboxes →
        r.2.2.2.2.1 = (interpolate_meshes nxboxes r.1 r.2.1 10 wt,
          interpolate_meshes nxboxes r.1 r.2.2.1 10 wt))
    ∧ (∀ (known : List ((ℕ × ℕ) × ℚ)) (k : ℕ) (wt2 : ℚ → ℚ)
        (target : ℕ × ℕ) (v : ℚ), (target, v) ∈ known →
        (known.map Prod.fst).Nodup →
        shepard_idw known k wt2 target = v)
    ∧ (∀ (nx2 : ℕ) (meshIdx : List ℕ) (vals : List ℚ) (k2 : ℕ)
        (wt2 : ℚ → ℚ) (j : ℕ) (hj : j < meshIdx.length)
        (hv : meshIdx.length = vals.length), 0 < nx2 → meshIdx.Nodup →
        interpolate_meshes nx2 meshIdx vals k2 wt2
          (meshIdx.get ⟨j, hj⟩ / nx2) (meshIdx.get ⟨j, hj⟩ % nx2) =
          vals.get ⟨j, by omega⟩) := by
  unfold calc_bkg_bkgrms at hcalc
  dsimp only at hcalc
  obtain ⟨idx, hsel, hok⟩ := bind_eq_ok hcalc
  rw [Except.ok.injEq] at hok
  subst hok
  have hlsub : idx.Sublist (List.range (applyClip sc rows1).length) :=
    select_meshes_sublist_range p A _ idx hsel
  have hidxle : idx.length ≤ meshIdx1.length := by
    have h1 := hlsub.length_le
    rwa [List.length_range, applyClip_length, hlen] at h1
  have hmle : meshIdx1.length ≤ nboxes := by
    have h1 := hsub.length_le
    rwa [List.length_range] at h1
  refine ⟨by simp; omega, ?_, ?_, shepard_exact, ?_⟩
  · intro hEq
    have hidxlen : idx.length = nboxes := by simpa using hEq
    have hb : ((idx.map
        (fun k => (applyClip sc rows1).getD k [])).map bkgE).length =
        nboxes := by simp [hidxlen]
    have hr : ((idx.map
        (fun k => (applyClip sc rows1).getD k [])).map rmsE).length =
        nboxes := by simp [hidxlen]
    dsimp only
    rw [if_pos hb, if_pos hr]
  · intro hLt
    have hidxlen : idx.length < nboxes := by simpa using hLt
    have hb : ¬((idx.map
        (fun k => (applyClip sc rows1).getD k [])).map bkgE).length =
        nboxes := by simp; omega
    have hr : ¬((idx.map
        (fun k => (applyClip sc rows1).getD k [])).map rmsE).length =
        nboxes := by simp; omega
    dsimp only
    rw [if_neg hb, if_neg hr]
  · intro nx2 meshIdx vals k2 wt2 j hj hv hnx hnd
    unfold interpolate_meshes
    have hjz : j < (meshIdx.zip vals).length := by
      rw [List.length_zip]
      omega
    apply shepard_exact
    · apply List.mem_map.mpr
      refine ⟨(meshIdx.get ⟨j, hj⟩, vals.get ⟨j, by omega⟩), ?_, rfl⟩
      have hz := @List.get_zip _ _ meshIdx vals ⟨j, hjz⟩
      exact hz ▸ List.get_mem _ _ _
    · have hmap : ((meshIdx.zip vals).map
          (fun e => ((e.1 / nx2, e.1 % nx2), e.2))).map Prod.fst =
          meshIdx.map (fun i => (i / nx2, i % nx2)) := by
        rw [List.map_map]
        have h1 : (Prod.fst ∘ fun e : ℕ × ℚ =>
            ((e.1 / nx2, e.1 % nx2), e.2)) =
            ((fun i : ℕ => (i / nx2, i % nx2)) ∘ Prod.fst) := rfl
        rw [h1, ← List.map_map,
          List.map_fst_zip meshIdx vals (le_of_eq hv)]
      rw [hmap]
      exact List.Nodup.map
        (fun a b hab => unravel_inj nx2 hnx a b hab) hnd

/-- Witness for C5 at a concrete one-mesh table: the final index is
complete, so its length is bounded by `n_boxes`. -/
theorem C5_gap_filler_witness : ([0] : List ℕ).length ≤ 1 := by
  have hcalc : calc_bkg_bkgrms 50 2 1 1 (1, 1) none
      (some (fun r => r)) (fun _ => 3) (fun _ => 2) (fun _ => 1)
      [[((9 : ℚ), false), (9, false)]] [0] 1 =
      .ok ([0], [3], [2], [[((9 : ℚ), false), (9, false)]],
        (make_2d_array 1 [0] [3], make_2d_array 1 [0] [2]),
        (make_2d_array 1 [0] [3], make_2d_array 1 [0] [2])) := by
    norm_num [calc_bkg_bkgrms, select_meshes, meshIncluded,
      threshold_npixels, countMasked, List.enum, List.enumFrom,
      List.filter, bind_ok, bind_error, applyClip]
  exact (C5_gap_filler 50 2 1 1 (1, 1) none (some (fun r => r))
    (fun _ => 3) (fun _ => 2) (fun _ => 1)
    [[((9 : ℚ), false), (9, false)]] [0] 1 _ rfl
    ((show List.range 1 = [0] from rfl) ▸ List.Sublist.refl [0])
    hcalc).1

end Claims5

section C6Helpers

lemma select_singleton (p : ℚ) (A : ℕ) (row : List Pixel)
    (idx : List ℕ) (h : select_meshes p A [row] = .ok idx) :
    idx = [0] := by
  unfold select_meshes at h
  cases hI : meshIncluded p A (countMasked row) with
  | false => simp [List.enum, List.enumFrom, List.filter, hI] at h
  | true =>
    simp [List.enum, List.enumFrom, List.filter, hI] at h
    exact h.symm

lemma mesh_table_single (bh bw : ℕ) (g : MaskedGrid) :
    mesh_table bh bw 1 1 g =
      [(List.range (bh * bw)).map
        (fun j => (g.val (j / bw) (j % bw), g.msk (j / bw) (j % bw)))] := by
  unfold mesh_table
  rw [show (1 * 1 : ℕ) = 1 from rfl, show List.range 1 = [0] from rfl]
  simp

lemma npMedian_singleton (v : ℚ) : npMedian [v] = v := by
  unfold npMedian
  rw [List.mergeSort_singleton]
  simp

lemma window_vals_single (fy fx : ℕ) (hfy : 0 < fy) (hfx : 0 < fx)
    (g : ℕ → ℕ → ℚ) : window_vals 1 1 fy fx g 0 0 = [g 0 0] := by
  unfold window_vals
  have h1 : (0 : ℕ) - fy / 2 = 0 := by omega
  have h2 : min (0 + (fy - fy / 2)) 1 = 1 := by omega
  have h3 : (0 : ℕ) - fx / 2 = 0 := by omega
  have h4 : min (0 + (fx - fx / 2)) 1 = 1 := by omega
  rw [h1, h2, h3, h4]
  simp [List.range']

lemma filter_meshes_single (fy fx : ℕ) (hfy : 0 < fy) (hfx : 0 < fx)
    (ft : Option ℚ) (b r : ℕ → ℕ → ℚ) :
    (filter_meshes 1 1 fy fx ft b r).1 0 0 = b 0 0
    ∧ (filter_meshes 1 1 fy fx ft b r).2 0 0 = r 0 0 := by
  cases ft with
  | none =>
    constructor <;>
      simp [filter_meshes, window_vals_single fy fx hfy hfx,
        npMedian_singleton]
  | some t =>
    constructor <;>
    · simp only [filter_meshes]
      split
      · rw [window_vals_single fy fx hfy hfx, npMedian_singleton]
      · rfl

lemma applyClip_singleton (sc : Option (List Pixel → List Pixel))
    (row : List Pixel) : ∃ row1, applyClip sc [row] = [row1] := by
  cases sc with
  | none => exact ⟨row, rfl⟩
  | some f => exact ⟨f row, rfl⟩

end C6Helpers

section Claims6

/-- C6: for any image, when `box_size` equals the image shape (one
single mesh), any successful construction yields final background and
RMS surfaces that are exactly constant, equal to the single mesh's
robust background and RMS statistics (`bkg1d`/`rms1d`, each a single
value). -/
theorem C6_single_mesh_degeneracy (cfg : Config) (H W : ℕ)
    (data : ℕ → ℕ → ℚ) (mask : Option (ℕ → ℕ → Bool)) (res : BkgResult)
    (hbox : cfg.box = (H, W)) (hH : 0 < H) (hW : 0 < W)
    (hfy : 0 < cfg.filter_size.1) (hfx : 0 < cfg.filter_size.2)
    (hinterp : cfg.interpolator = zoom_interpolator)
    (h : construct cfg H W data mask none = .ok res) :
    res.nboxes = 1
    ∧ ∃ v vr, res.bkg1d = [v] ∧ res.rms1d = [vr]
      ∧ ∀ y x : ℕ, res.background y x = v
        ∧ res.background_rms y x = vr := by
  unfold construct at h
  by_cases hp : cfg.exclude_percentile < 0 ∨ 100 < cfg.exclude_percentile
  · rw [if_pos hp] at h
    exact Except.noConfusion h
  rw [if_neg hp] at h
  have hb1 : min cfg.box.1 H = H := by rw [hbox]; exact min_self H
  have hb2 : min cfg.box.2 W = W := by rw [hbox]; exact min_self W
  rw [hb1, hb2] at h
  dsimp only at h
  obtain ⟨prep, hprep, h⟩ := bind_eq_ok h
  unfold prepare_data at hprep
  rw [if_pos (by simp [Nat.mod_self]), bind_ok] at hprep
  dsimp only at hprep
  rw [Nat.div_self hH, Nat.div_self hW, mesh_table_single] at hprep
  obtain ⟨midx, hsel, hprep⟩ := bind_eq_ok hprep
  have hmidx := select_singleton _ _ _ _ hsel
  subst hmidx
  rw [Except.ok.injEq] at hprep
  subst hprep
  dsimp only at h
  rw [List.map_cons, List.map_nil, List.getD_cons_zero] at h
  unfold calc_bkg_bkgrms at h
  dsimp only at h
  obtain ⟨row1, hrow1⟩ := applyClip_singleton cfg.sigma_clip
    ((List.range (H * W)).map (fun j =>
      ((⟨H, W, data, maskFun (combine_masks mask none)⟩ :
          MaskedGrid).val (j / W) (j % W),
        (⟨H, W, data, maskFun (combine_masks mask none)⟩ :
          MaskedGrid).msk (j / W) (j % W))))
  rw [hrow1] at h
  obtain ⟨r2, hcalc2, h⟩ := bind_eq_ok h
  obtain ⟨idx2, hsel2, hr2⟩ := bind_eq_ok hcalc2
  have hidx2 := select_singleton _ _ _ _ hsel2
  subst hidx2
  rw [Except.ok.injEq] at hr2
  subst hr2
  simp only [List.map_cons, List.map_nil, List.getD_cons_zero,
    List.length_cons, List.length_nil, Nat.mul_one, Nat.zero_add,
    eq_self_iff_true, if_true] at h
  by_cases hfs : cfg.filter_size = (1, 1)
  · rw [if_pos hfs] at h
    rw [Except.ok.injEq] at h
    subst h
    refine ⟨by norm_num, _, _, rfl, rfl, fun y x => ?_⟩
    rw [hinterp]
    constructor <;>
    · simp only [apply_coverage_fill, zoom_interpolator, Nat.sub_self,
        Nat.min_zero]
      rfl
  · rw [if_neg hfs] at h
    rw [Except.ok.injEq] at h
    subst h
    obtain ⟨hf1, hf2⟩ := filter_meshes_single cfg.filter_size.1
      cfg.filter_size.2 hfy hfx cfg.filter_threshold
      (make_2d_array 1 [0]
        [(init_estimators cfg.bkg_estimator cfg.bkgrms_estimator).1.call
          row1])
      (make_2d_array 1 [0]
        [(init_estimators cfg.bkg_estimator cfg.bkgrms_estimator).2.call
          row1])
    refine ⟨by norm_num, _, _, rfl, rfl, fun y x => ?_⟩
    rw [hinterp]
    constructor
    · simp only [apply_coverage_fill, zoom_interpolator, Nat.sub_self,
        Nat.min_zero]
      rw [hf1]
      rfl
    · simp only [apply_coverage_fill, zoom_interpolator, Nat.sub_self,
        Nat.min_zero]
      rw [hf2]
      rfl

/-- A concrete single-mesh configuration: 1×1 box on a 1×1 image, with
the (spec-modelled) zoom interpolator. -/
def cfg6 : Config :=
  { cfgEx with box := (1, 1), interpolator := zoom_interpolator }

/-- Witness for C6 on a concrete 1×1 image: the final surfaces are the
constants given by the single mesh's statistics. -/
theorem C6_single_mesh_degeneracy_witness :
    ∃ v vr, ([3] : List ℚ) = [v] ∧ ([2] : List ℚ) = [vr]
      ∧ ∀ y x : ℕ,
        apply_coverage_fill none 5
          (zoom_interpolator 1 1 1 1 (make_2d_array 1 [0] [3])) y x = v
        ∧ apply_coverage_fill none 5
          (zoom_interpolator 1 1 1 1 (make_2d_array 1 [0] [2])) y x
          = vr := by
  have h : construct cfg6 1 1 (fun _ _ => 7) none none = .ok
      { nyboxes := 1, nxboxes := 1, nboxes := 1, mesh_idx := [0],
        bkg1d := [3], rms1d := [2], data_sigclip := [[(7, false)]],
        mesh_unfiltered := make_2d_array 1 [0] [3],
        rms_mesh_unfiltered := make_2d_array 1 [0] [2],
        background_mesh := make_2d_array 1 [0] [3],
        background_rms_mesh := make_2d_array 1 [0] [2],
        background := apply_coverage_fill none 5
          (zoom_interpolator 1 1 1 1 (make_2d_array 1 [0] [3])),
        background_rms := apply_coverage_fill none 5
          (zoom_interpolator 1 1 1 1 (make_2d_array 1 [0] [2])) } := by
    norm_num [construct, cfg6, cfgEx, prepare_data, select_meshes,
      mesh_table, meshIncluded, threshold_npixels, countMasked,
      calc_bkg_bkgrms, combine_masks, maskFun, init_estimators,
      List.enum, List.enumFrom, List.filter, bind_ok, bind_error,
      applyClip]
  exact (C6_single_mesh_degeneracy cfg6 1 1 (fun _ _ => 7) none _ rfl
    (by norm_num) (by norm_num) (by norm_num [cfg6, cfgEx])
    (by norm_num [cfg6, cfgEx]) rfl h).2

end Claims6

end Background2D
